import Mathlib

/-!
Shallow embedding of `aws/resource_aws_acm_certificate_validation.go`
(junohq/terraform-provider-aws): the ACM certificate-validation waiter and
the IAM server-certificate resource.  Go machine integers are embedded as
`Nat` with explicit `% 2^32` where overflow matters; AWS SDK pointer fields
are embedded as plain values except where the Go code itself tests the
pointer for nil (`ValidationMethod`), or where an absent value is the point
of a claim (the response of a failed `DescribeCertificate`, embedded via
`Except`).
-/

set_option maxRecDepth 100000

namespace TfAws

/-! ## SHA-1 over byte lists (bytes and 32-bit words as `Nat`), as used by
`normalizeCert` via `crypto/sha1`. -/

def m32 : Nat := 4294967296

def rotl (k x : Nat) : Nat := x * 2 ^ k % m32 + x / 2 ^ (32 - k)

def sha1F (t b c d : Nat) : Nat :=
  if t < 20 then (b &&& c) ||| ((4294967295 - b) &&& d)
  else if t < 40 then b ^^^ c ^^^ d
  else if t < 60 then (b &&& c) ||| (b &&& d) ||| (c &&& d)
  else b ^^^ c ^^^ d

def sha1K (t : Nat) : Nat :=
  if t < 20 then 1518500249 else if t < 40 then 1859775393
  else if t < 60 then 2400959708 else 3395469782

def beBytes : Nat → Nat → List Nat
  | 0, _ => []
  | k + 1, n => beBytes k (n / 256) ++ [n % 256]

def sha1Pad (msg : List Nat) : List Nat :=
  msg ++ [128] ++ List.replicate ((119 - msg.length % 64) % 64) 0
      ++ beBytes 8 (msg.length * 8)

def toWords : List Nat → List Nat
  | b0 :: b1 :: b2 :: b3 :: rest =>
    (((b0 * 256 + b1) * 256 + b2) * 256 + b3) :: toWords rest
  | _ => []

def toBlocksFuel : Nat → List Nat → List (List Nat)
  | 0, _ => []
  | _, [] => []
  | f + 1, w :: ws => (w :: ws.take 15) :: toBlocksFuel f (ws.drop 15)

/-- Split a word list into 16-word blocks (each step consumes at least one
element, so `l.length` steps of fuel always suffice). -/
def toBlocks (l : List Nat) : List (List Nat) := toBlocksFuel l.length l

def sha1ExtendRev : List Nat → Nat → List Nat
  | rev, 0 => rev
  | rev, k + 1 =>
    sha1ExtendRev
      (rotl 1 (rev.getD 2 0 ^^^ rev.getD 7 0 ^^^ rev.getD 13 0 ^^^ rev.getD 15 0) :: rev) k

def sha1Schedule (block : List Nat) : List Nat :=
  (sha1ExtendRev block.reverse 64).reverse

def sha1Compress (h : Nat × Nat × Nat × Nat × Nat) (block : List Nat) :
    Nat × Nat × Nat × Nat × Nat :=
  let ws := sha1Schedule block
  let fin := (List.range 80).foldl
    (fun st t =>
      match st with
      | (a, b, c, d, e) =>
        ((rotl 5 a + sha1F t b c d + e + sha1K t + ws.getD t 0) % m32, a, rotl 30 b, c, d))
    h
  match h, fin with
  | (h0, h1, h2, h3, h4), (a, b, c, d, e) =>
    ((h0 + a) % m32, (h1 + b) % m32, (h2 + c) % m32, (h3 + d) % m32, (h4 + e) % m32)

def sha1Bytes (msg : List Nat) : List Nat :=
  match (toBlocks (toWords (sha1Pad msg))).foldl sha1Compress
      (1732584193, 4023233417, 2562383102, 271733878, 3285377520) with
  | (h0, h1, h2, h3, h4) =>
    beBytes 4 h0 ++ beBytes 4 h1 ++ beBytes 4 h2 ++ beBytes 4 h3 ++ beBytes 4 h4

def hexChar (n : Nat) : Char := if n < 10 then Char.ofNat (48 + n) else Char.ofNat (87 + n)

def sha1Hex (msg : List Nat) : String :=
  String.mk (((sha1Bytes msg).map (fun b => [hexChar (b / 16), hexChar (b % 16)])).flatten)

/-! ## Go string primitives used by `normalizeCert`:
`strings.TrimSpace` (Unicode white space), `[]byte` conversion (UTF-8),
and the file's own `stripCR`. -/

def goIsSpace (c : Char) : Bool :=
  let n := c.toNat
  n == 9 || n == 10 || n == 11 || n == 12 || n == 13 || n == 32 ||
  n == 133 || n == 160 || n == 5760 ||
  (decide (8192 ≤ n) && decide (n ≤ 8202)) ||
  n == 8232 || n == 8233 || n == 8239 || n == 8287 || n == 12288

def goTrimSpace (l : List Char) : List Char :=
  ((l.dropWhile goIsSpace).reverse.dropWhile goIsSpace).reverse

def utf8Char (c : Char) : List Nat :=
  let n := c.toNat
  if n < 128 then [n]
  else if n < 2048 then [192 + n / 64, 128 + n % 64]
  else if n < 65536 then [224 + n / 4096, 128 + n / 64 % 64, 128 + n % 64]
  else [240 + n / 262144, 128 + n / 4096 % 64, 128 + n / 64 % 64, 128 + n % 64]

def utf8Encode (l : List Char) : List Nat := (l.map utf8Char).flatten

/-- `stripCR` from the source: copy all bytes except `'\r'` (byte 13). -/
def stripCR (b : List Nat) : List Nat := b.filter (fun x => x != 13)

def certSignature (raw : String) : String :=
  sha1Hex (stripCR (utf8Encode (goTrimSpace raw.data)))

/-- The `interface{}` argument of `normalizeCert`: nil, a string, a `*string`
(possibly nil), or any other dynamic type (the `default` case). -/
inductive CertInput where
  | null
  | str (s : String)
  | strPtr (p : Option String)
  | other

/-- `normalizeCert` from the source. -/
def normalizeCert : CertInput → String
  | .null => ""
  | .strPtr none => ""
  | .str s => certSignature s
  | .strPtr (some s) => certSignature s
  | .other => ""

/-! ## Retry engine: `resource.Retry` from the plugin SDK, with the
deadline modelled as fuel.  `fuel` is the number of re-attempts the
deadline still admits, so a run makes between `1` and `fuel + 1` attempts;
a retryable failure with no fuel left is the deadline expiring with that
last error, which is exactly the outcome `isResourceTimeoutError`
recognises at the call sites. -/

inductive RetryOutcome (ε : Type) where
  | done
  | retryable (e : ε)
  | nonRetryable (e : ε)

inductive RetryResult (ε : Type) where
  | ok
  | timeout (last : ε)
  | fatal (e : ε)

def Retry {σ ε : Type} (fuel : Nat) (f : σ → RetryOutcome ε × σ) (s : σ) :
    RetryResult ε × σ :=
  match f s with
  | (.done, s2) => (.ok, s2)
  | (.nonRetryable e, s2) => (.fatal e, s2)
  | (.retryable e, s2) =>
    match fuel with
    | 0 => (.timeout e, s2)
    | f2 + 1 => Retry f2 f s2

theorem Retry_done {σ ε : Type} (fuel : Nat) (f : σ → RetryOutcome ε × σ) (s s2 : σ)
    (h : f s = (.done, s2)) : Retry fuel f s = (.ok, s2) := by
  rw [Retry.eq_def, h]

theorem Retry_fatal {σ ε : Type} (fuel : Nat) (f : σ → RetryOutcome ε × σ) (s s2 : σ) (e : ε)
    (h : f s = (.nonRetryable e, s2)) : Retry fuel f s = (.fatal e, s2) := by
  rw [Retry.eq_def, h]

theorem Retry_retryable_zero {σ ε : Type} (f : σ → RetryOutcome ε × σ) (s s2 : σ) (e : ε)
    (h : f s = (.retryable e, s2)) : Retry 0 f s = (.timeout e, s2) := by
  rw [Retry.eq_def, h]

theorem Retry_retryable_succ {σ ε : Type} (f2 : Nat) (f : σ → RetryOutcome ε × σ)
    (s s2 : σ) (e : ε)
    (h : f s = (.retryable e, s2)) : Retry (f2 + 1) f s = Retry f2 f s2 := by
  rw [Retry.eq_def, h]

/-! ## ACM data model.  A run's interaction with the certificate API is an
environment `env : Nat → Except ApiError CertDetail` giving the response of
the `n`-th `DescribeCertificate` call; the state threaded through the
embedded functions is the number of calls made so far.  SDK `*string`
fields are embedded as the dereferenced values; `ValidationMethod`, whose
pointer the source tests for nil, stays an `Option`. -/

structure ApiError where
  code : String
  message : String
deriving DecidableEq, Repr

structure DomainValidation where
  domainName : String
  validationMethod : Option String
  validationEmails : List String
  resourceRecordName : String
deriving DecidableEq, Repr

structure CertDetail where
  arn : String
  status : String
  certType : String
  domainValidationOptions : List DomainValidation
  /-- `(*cert.IssuedAt).String()`, the issuance timestamp rendered as a string. -/
  issuedAt : String
deriving DecidableEq, Repr

abbrev DescribeEnv := Nat → Except ApiError CertDetail

instance {ε α : Type} [DecidableEq ε] [DecidableEq α] : DecidableEq (Except ε α) := fun
  | .error a, .error b =>
    if h : a = b then isTrue (by rw [h])
    else isFalse (by intro hc; injection hc with h2; exact h h2)
  | .error _, .ok _ => isFalse (by intro hc; exact Except.noConfusion hc)
  | .ok _, .error _ => isFalse (by intro hc; exact Except.noConfusion hc)
  | .ok a, .ok b =>
    if h : a = b then isTrue (by rw [h])
    else isFalse (by intro hc; injection hc with h2; exact h h2)

/-- `strings.TrimSuffix(s, ".")`: drop one trailing dot if present. -/
def trimDot (s : String) : String :=
  if s.data.getLast? = some '.' then String.mk s.data.dropLast else s

/-- Go map insertion `expectedFqdns[k] = v`: overwrite an existing binding,
else append. -/
def mapInsert (k : String) (v : DomainValidation) :
    List (String × DomainValidation) → List (String × DomainValidation)
  | [] => [(k, v)]
  | (k2, v2) :: t => if k2 = k then (k, v) :: t else (k2, v2) :: mapInsert k v t

/-- Go map deletion `delete(expectedFqdns, k)`. -/
def mapErase (k : String) :
    List (String × DomainValidation) → List (String × DomainValidation)
  | [] => []
  | (k2, v2) :: t => if k2 = k then t else (k2, v2) :: mapErase k t

def mapLookup (k : String) :
    List (String × DomainValidation) → Option DomainValidation
  | [] => none
  | (k2, v2) :: t => if k2 = k then some v2 else mapLookup k t

inductive CheckError where
  /-- a `DescribeCertificate` error propagated out of the population wait -/
  | describeError (msg : String)
  /-- `Certificate domain validation options empty for %s` -/
  | emptyOptions
  /-- `validation_record_fqdns is only valid for DNS validation` -/
  | methodNotSupported
  /-- the aggregated multierror: one `missing %s DNS validation record: %s`
  entry per remaining map element, as `(DomainName, expectedFqdn)` pairs -/
  | missingRecords (entries : List (String × String))
deriving DecidableEq, Repr

/-- Lines 133–144 of the source: seed `expectedFqdns` from the validation
options, failing on any set non-DNS method, or on an unset method with
validation e-mail addresses present (options with an unset method and no
e-mails are skipped). -/
def buildExpected : List DomainValidation → List (String × DomainValidation) →
    Except CheckError (List (String × DomainValidation))
  | [], m => .ok m
  | v :: vs, m =>
    match v.validationMethod with
    | some meth =>
      if meth ≠ "DNS" then .error .methodNotSupported
      else buildExpected vs (mapInsert (trimDot v.resourceRecordName) v m)
    | none =>
      if v.validationEmails ≠ [] then .error .methodNotSupported
      else buildExpected vs m

/-- Lines 133–158 of the source: build the expected map, delete every
declared FQDN (trailing-dot-trimmed), and report the remainder as the
aggregated multierror.  The Lean list keeps insertion order where the Go
map iterates in unspecified order; the claims about it are
order-insensitive. -/
def checkCore (fqdns : List String) (opts : List DomainValidation) :
    Except CheckError Unit :=
  match buildExpected opts [] with
  | .error e => .error e
  | .ok m =>
    let m2 := fqdns.foldl (fun acc f => mapErase (trimDot f) acc) m
    if m2.isEmpty then .ok ()
    else .error (.missingRecords (m2.map (fun p => (p.2.domainName, p.1))))

/-- The closure of the 1-minute requirement-population wait (lines
107–118): the state also carries the latest successful response (the Go
`output` variable). -/
def popAttempt (env : DescribeEnv) :
    Nat × Option CertDetail → RetryOutcome CheckError × (Nat × Option CertDetail)
  | (n, o) =>
    match env n with
    | .error e => (.nonRetryable (.describeError e.message), (n + 1, o))
    | .ok c =>
      if c.domainValidationOptions.isEmpty then
        (.retryable .emptyOptions, (n + 1, some c))
      else (.done, (n + 1, some c))

/-- `resourceAwsAcmCertificateCheckValidationRecords` (lines 98–159): when
the passed certificate has no validation options yet, wait for them to
populate (with one more authoritative fetch on deadline expiry), then run
the satisfaction check on the freshest options. -/
def checkValidationRecords (fuel : Nat) (env : DescribeEnv) (fqdns : List String)
    (cert : CertDetail) (s : Nat) : Except CheckError Unit × Nat :=
  if cert.domainValidationOptions.isEmpty then
    match Retry fuel (popAttempt env) (s, none) with
    | (.ok, (n, some c)) => (checkCore fqdns c.domainValidationOptions, n)
    | (.ok, (n, none)) => (.error .emptyOptions, n)  -- unreachable: `.done` always records a response
    | (.fatal e, (n, _)) => (.error e, n)
    | (.timeout _, (n, _)) =>
      match env n with
      | .error e => (.error (.describeError e.message), n + 1)
      | .ok c =>
        if c.domainValidationOptions.isEmpty then (.error .emptyOptions, n + 1)
        else (checkCore fqdns c.domainValidationOptions, n + 1)
  else (checkCore fqdns cert.domainValidationOptions, s)

/-- `resourceAwsAcmCertificateValidationRead` (lines 161–184), as a
function of the response of its single `DescribeCertificate` call:
`.ok none` is `d.SetId("")` with a nil error, `.ok (some id)` is
`d.SetId(id)` with a nil error. -/
def readModel (r : Except ApiError CertDetail) : Except String (Option String) :=
  match r with
  | .error e =>
    if e.code = "ResourceNotFoundException" then .ok none
    else .error ("Error describing certificate: " ++ e.message)
  | .ok c =>
    if c.status ≠ "ISSUED" then .ok none
    else .ok (some c.issuedAt)

inductive CreateError where
  | describeError (msg : String)
  /-- `Certificate %s has type %s, no validation necessary` (the source
  interpolates the status, not the type, as the second argument) -/
  | wrongType (arn status : String)
  | check (e : CheckError)
  /-- `Expected certificate to be issued but was in state %s` -/
  | notIssued (status : String)
  | readError (msg : String)
  /-- line 93: `Error describing created certificate: %s` around a fatal
  loop error -/
  | wrapped (e : CreateError)
deriving DecidableEq, Repr

inductive CreateOutcome where
  | ok
  | err (e : CreateError)
  /-- line 88 reads `resp.Certificate.Status` without checking the error of
  the final post-deadline `DescribeCertificate`; on an error response the
  certificate is absent and the field selection faults -/
  | panicNilDeref
deriving DecidableEq, Repr

/-- The polling closure of the Create retry loop (lines 69–85): describe;
transport error is non-retryable, a non-ISSUED status retryable; on ISSUED,
run Read (one more `DescribeCertificate`) and stop. -/
def createAttempt (env : DescribeEnv) (n : Nat) : RetryOutcome CreateError × Nat :=
  match env n with
  | .error e => (.nonRetryable (.describeError e.message), n + 1)
  | .ok c =>
    if c.status ≠ "ISSUED" then (.retryable (.notIssued c.status), n + 1)
    else
      match readModel (env (n + 1)) with
      | .error msg => (.nonRetryable (.readError msg), n + 2)
      | .ok _ => (.done, n + 2)

/-- `resourceAwsAcmCertificateValidationCreate` (lines 42–96).  `fqdns` is
`none` when `validation_record_fqdns` is unset (the `GetOk` miss). -/
def create (fuelPop fuelLoop : Nat) (env : DescribeEnv)
    (fqdns : Option (List String)) : CreateOutcome × Nat :=
  match env 0 with
  | .error e => (.err (.describeError e.message), 1)
  | .ok c =>
    if c.certType ≠ "AMAZON_ISSUED" then (.err (.wrongType c.arn c.status), 1)
    else
      match (match fqdns with
             | some ds => checkValidationRecords fuelPop env ds c 1
             | none => (.ok (), 1)) with
      | (.error e, n) => (.err (.check e), n)
      | (.ok _, n) =>
        match Retry fuelLoop (createAttempt env) n with
        | (.ok, m) => (.ok, m)
        | (.fatal e, m) => (.err (.wrapped e), m)
        | (.timeout _, m) =>
          match env m with
          | .error _ => (.panicNilDeref, m + 1)
          | .ok c2 =>
            if c2.status ≠ "ISSUED" then (.err (.notIssued c2.status), m + 1)
            else (.ok, m + 1)

/-! ## IAM server-certificate delete (lines 342–396). -/

inductive DeleteResp where
  | ok
  | aws (e : ApiError)
  | plain (msg : String)
deriving DecidableEq, Repr

def containsAux (sub : List Char) : List Char → Bool
  | [] => sub.isEmpty
  | c :: t => sub.isPrefixOf (c :: t) || containsAux sub t

/-- `strings.Contains s sub`. -/
def goContains (s sub : String) : Bool := containsAux sub.data s.data

/-- the character class `[a-z0-9:-]` of the in-use pattern -/
def isClass1 (c : Char) : Bool :=
  (decide ('a' ≤ c) && decide (c ≤ 'z')) ||
  (decide ('0' ≤ c) && decide (c ≤ '9')) || c == ':' || c == '-'

/-- the character class `[a-z0-9-]` of the in-use pattern -/
def isClass2 (c : Char) : Bool :=
  (decide ('a' ≤ c) && decide (c ≤ 'z')) ||
  (decide ('0' ≤ c) && decide (c ≤ '9')) || c == '-'

/-- The tail of `currently in use by ([a-z0-9:-]+)\/([a-z0-9-]+)\.` after
the literal.  Neither class contains `/` or `.`, so the greedy
subexpressions can only match the maximal runs and no backtracking case
remains. -/
def inUseTailMatch (l : List Char) : Option (String × String) :=
  let r1 := l.takeWhile isClass1
  if r1.isEmpty then none else
  match l.dropWhile isClass1 with
  | '/' :: rest2 =>
    let r2 := rest2.takeWhile isClass2
    if r2.isEmpty then none else
    (match rest2.dropWhile isClass2 with
     | '.' :: _ => some (String.mk r1, String.mk r2)
     | _ => none)
  | _ => none

def inUseLit : List Char := "currently in use by ".data

/-- Leftmost match of the compiled pattern (`FindStringSubmatch`): try each
start position left to right. -/
def findInUseMatch : List Char → Option (String × String)
  | [] => none
  | c :: t =>
    if inUseLit.isPrefixOf (c :: t) then
      match inUseTailMatch ((c :: t).drop inUseLit.length) with
      | some r => some r
      | none => findInUseMatch t
    else findInUseMatch t

/-- `currentlyInUseBy` (lines 382–396): parse the referencing load-balancer
name (submatch 2) out of the conflict message.  The source then issues a
purely diagnostic `DescribeLoadBalancers` for that name whose own not-found
error is only logged, so the observable content is the parsed name
(`none` when the pattern does not match and no lookup is attempted). -/
def currentlyInUseBy (msg : String) : Option String :=
  (findInUseMatch msg.data).map (fun p => p.2)

/-- One attempt of the delete retry loop (lines 345–364): a
`DeleteConflict` whose message contains `"currently in use by arn"` is
retryable (after the diagnostic parse), `NoSuchEntity` is success, any
other error is non-retryable. -/
def deleteAttempt (env : Nat → DeleteResp) (n : Nat) : RetryOutcome DeleteResp × Nat :=
  match env n with
  | .ok => (.done, n + 1)
  | .aws e =>
    if e.code == "DeleteConflict" && goContains e.message "currently in use by arn" then
      (.retryable (.aws e), n + 1)
    else if e.code == "NoSuchEntity" then (.done, n + 1)
    else (.nonRetryable (.aws e), n + 1)
  | .plain m => (.nonRetryable (.plain m), n + 1)

/-- `resourceAwsIAMServerCertificateDelete` (lines 342–373): retry the
delete under the 15-minute deadline; on deadline expiry issue one final
bare delete whose error — even `NoSuchEntity` — is returned unclassified. -/
def serverCertDelete (fuel : Nat) (env : Nat → DeleteResp) :
    Except DeleteResp Unit × Nat :=
  match Retry fuel (deleteAttempt env) 0 with
  | (.ok, n) => (.ok (), n)
  | (.fatal e, n) => (.error e, n)
  | (.timeout _, n) =>
    match env n with
    | .ok => (.ok (), n + 1)
    | r => (.error r, n + 1)

/-! ## Association-map lemmas for the `expectedFqdns` Go map. -/

def mapKeys (m : List (String × DomainValidation)) : List String := m.map Prod.fst

def NodupKeys (m : List (String × DomainValidation)) : Prop := (mapKeys m).Nodup

/-- The last validation option (in list order) whose trimmed record name is
`k` — the binding a sequence of overwriting Go-map insertions leaves at key
`k`. -/
def lastDns (k : String) : List DomainValidation → Option DomainValidation
  | [] => none
  | v :: vs =>
    match lastDns k vs with
    | some w => some w
    | none => if trimDot v.resourceRecordName = k then some v else none

theorem mapLookup_insert (k k2 : String) (v : DomainValidation)
    (m : List (String × DomainValidation)) :
    mapLookup k (mapInsert k2 v m) = if k = k2 then some v else mapLookup k m := by
  induction m with
  | nil =>
    by_cases h : k = k2
    · subst h; simp [mapInsert, mapLookup]
    · simp [mapInsert, mapLookup, h, Ne.symm h]
  | cons p t ih =>
    obtain ⟨k3, v3⟩ := p
    by_cases h3 : k3 = k2
    · subst h3
      by_cases h : k = k3
      · subst h; simp [mapInsert, mapLookup]
      · simp [mapInsert, mapLookup, h, Ne.symm h]
    · by_cases h : k3 = k
      · subst h
        simp [mapInsert, mapLookup, h3]
      · simp [mapInsert, mapLookup, h3, h, ih]

theorem mem_mapKeys_insert (k2 k3 : String) (v : DomainValidation)
    (m : List (String × DomainValidation)) :
    k3 ∈ mapKeys (mapInsert k2 v m) ↔ k3 = k2 ∨ k3 ∈ mapKeys m := by
  induction m with
  | nil => simp [mapInsert, mapKeys]
  | cons p t ih =>
    obtain ⟨k4, v4⟩ := p
    by_cases h : k4 = k2
    · subst h
      have e : mapInsert k4 v ((k4, v4) :: t) = (k4, v) :: t := by simp [mapInsert]
      rw [e]
      simp only [mapKeys, List.map_cons, List.mem_cons]
      tauto
    · simp only [mapInsert, if_neg h, mapKeys, List.map_cons, List.mem_cons]
      simp only [mapKeys] at ih
      rw [ih]
      tauto

theorem nodupKeys_insert (k2 : String) (v : DomainValidation)
    (m : List (String × DomainValidation)) (hm : NodupKeys m) :
    NodupKeys (mapInsert k2 v m) := by
  induction m with
  | nil => simp [mapInsert, NodupKeys, mapKeys]
  | cons p t ih =>
    obtain ⟨k4, v4⟩ := p
    simp only [NodupKeys, mapKeys, List.map_cons, List.nodup_cons] at hm
    by_cases h : k4 = k2
    · subst h
      simpa [mapInsert, NodupKeys, mapKeys] using hm
    · have ht := ih hm.2
      simp only [mapInsert, if_neg h, NodupKeys, mapKeys, List.map_cons, List.nodup_cons]
      refine ⟨?_, ht⟩
      intro hmem
      rcases (mem_mapKeys_insert k2 k4 v t).mp hmem with h1 | h2
      · exact h h1
      · exact hm.1 h2

theorem mapLookup_eq_none_of_not_mem (k : String)
    (m : List (String × DomainValidation)) (h : k ∉ mapKeys m) :
    mapLookup k m = none := by
  induction m with
  | nil => simp [mapLookup]
  | cons p t ih =>
    obtain ⟨k2, v2⟩ := p
    simp only [mapKeys, List.map_cons, List.mem_cons] at h
    push_neg at h
    simp only [mapLookup, if_neg (fun h2 : k2 = k => h.1 h2.symm)]
    exact ih (by simpa [mapKeys] using h.2)

theorem mem_mapKeys_erase_sub (k k2 : String)
    (m : List (String × DomainValidation)) (h : k ∈ mapKeys (mapErase k2 m)) :
    k ∈ mapKeys m := by
  induction m with
  | nil => simpa [mapErase] using h
  | cons p t ih =>
    obtain ⟨k3, v3⟩ := p
    by_cases h3 : k3 = k2
    · subst h3
      simp only [mapErase, if_pos rfl] at h
      simp only [mapKeys, List.map_cons, List.mem_cons]
      right
      simpa [mapKeys] using h
    · simp only [mapErase, if_neg h3, mapKeys, List.map_cons, List.mem_cons] at h ⊢
      rcases h with h1 | h2
      · exact Or.inl h1
      · exact Or.inr (ih (by simpa [mapKeys] using h2))

theorem nodupKeys_erase (k2 : String)
    (m : List (String × DomainValidation)) (hm : NodupKeys m) :
    NodupKeys (mapErase k2 m) := by
  induction m with
  | nil => simpa [mapErase] using hm
  | cons p t ih =>
    obtain ⟨k3, v3⟩ := p
    simp only [NodupKeys, mapKeys, List.map_cons, List.nodup_cons] at hm
    by_cases h3 : k3 = k2
    · subst h3
      simpa [mapErase, NodupKeys, mapKeys] using hm.2
    · simp only [mapErase, if_neg h3, NodupKeys, mapKeys, List.map_cons, List.nodup_cons]
      exact ⟨fun hmem => hm.1 (mem_mapKeys_erase_sub k3 k2 t hmem), ih hm.2⟩

theorem mapLookup_erase (k k2 : String)
    (m : List (String × DomainValidation)) (hm : NodupKeys m) :
    mapLookup k (mapErase k2 m) = if k = k2 then none else mapLookup k m := by
  induction m with
  | nil => by_cases h : k = k2 <;> simp [mapErase, mapLookup, h]
  | cons p t ih =>
    obtain ⟨k3, v3⟩ := p
    simp only [NodupKeys, mapKeys, List.map_cons, List.nodup_cons] at hm
    by_cases h3 : k3 = k2
    · subst h3
      simp only [mapErase, if_pos rfl]
      by_cases h : k = k3
      · subst h
        simp [mapLookup_eq_none_of_not_mem k t (by simpa [mapKeys] using hm.1)]
      · simp [mapLookup, h, Ne.symm h]
    · simp only [mapErase, if_neg h3]
      by_cases h : k3 = k
      · subst h
        simp [mapLookup, h3]
      · simp only [mapLookup, if_neg h]
        rw [ih hm.2]

theorem mapLookup_foldl_erase (k : String) (ds : List String) :
    ∀ m : List (String × DomainValidation), NodupKeys m →
      mapLookup k (ds.foldl (fun acc f => mapErase (trimDot f) acc) m) =
        if k ∈ ds.map trimDot then none else mapLookup k m := by
  induction ds with
  | nil => intro m _; simp
  | cons d t ih =>
    intro m hm
    have hstep := ih (mapErase (trimDot d) m) (nodupKeys_erase _ m hm)
    simp only [List.foldl_cons] at *
    rw [hstep, mapLookup_erase k (trimDot d) m hm]
    by_cases h1 : k ∈ t.map trimDot <;> by_cases h2 : k = trimDot d <;>
      simp [h1, h2, List.mem_cons]

theorem nodupKeys_foldl_erase (ds : List String) :
    ∀ m : List (String × DomainValidation), NodupKeys m →
      NodupKeys (ds.foldl (fun acc f => mapErase (trimDot f) acc) m) := by
  induction ds with
  | nil => intro m hm; simpa using hm
  | cons d t ih => intro m hm; exact ih _ (nodupKeys_erase _ m hm)

theorem mem_iff_mapLookup (k : String) (v : DomainValidation)
    (m : List (String × DomainValidation)) (hm : NodupKeys m) :
    (k, v) ∈ m ↔ mapLookup k m = some v := by
  induction m with
  | nil => simp [mapLookup]
  | cons p t ih =>
    obtain ⟨k3, v3⟩ := p
    simp only [NodupKeys, mapKeys, List.map_cons, List.nodup_cons] at hm
    by_cases h : k3 = k
    · subst h
      have e : mapLookup k3 ((k3, v3) :: t) = some v3 := by simp [mapLookup]
      rw [e]
      simp only [List.mem_cons]
      constructor
      · rintro (h1 | h2)
        · injection h1 with ha hb
          rw [hb]
        · exact absurd (List.mem_map_of_mem Prod.fst h2) hm.1
      · intro h1
        injection h1 with hb
        exact Or.inl (by rw [← hb])
    · have e : mapLookup k ((k3, v3) :: t) = mapLookup k t := by simp [mapLookup, h]
      rw [e, ← ih hm.2]
      simp only [List.mem_cons]
      constructor
      · rintro (h1 | h2)
        · injection h1 with ha hb
          exact absurd ha.symm h
        · exact h2
      · exact fun h2 => Or.inr h2

theorem lastDns_mem (k : String) (opts : List DomainValidation) :
    ∀ w : DomainValidation, lastDns k opts = some w →
      w ∈ opts ∧ trimDot w.resourceRecordName = k := by
  induction opts with
  | nil => intro w h; simp [lastDns] at h
  | cons v vs ih =>
    intro w h
    simp only [lastDns] at h
    split at h
    next w2 hv =>
      cases h
      obtain ⟨h1, h2⟩ := ih _ hv
      exact ⟨List.mem_cons_of_mem v h1, h2⟩
    next hv =>
      by_cases ht : trimDot v.resourceRecordName = k
      · rw [if_pos ht] at h
        cases h
        exact ⟨List.mem_cons_self v vs, ht⟩
      · rw [if_neg ht] at h
        exact Option.noConfusion h

theorem lastDns_eq_none (k : String) (opts : List DomainValidation) :
    lastDns k opts = none ↔ ∀ v ∈ opts, trimDot v.resourceRecordName ≠ k := by
  induction opts with
  | nil => simp [lastDns]
  | cons v vs ih =>
    simp only [lastDns, List.mem_cons]
    constructor
    · intro h v2 hv2
      split at h
      next w2 hv => exact Option.noConfusion h
      next hv =>
        rcases hv2 with rfl | h2
        · by_cases ht : trimDot v2.resourceRecordName = k
          · rw [if_pos ht] at h
            exact Option.noConfusion h
          · exact ht
        · exact ih.mp hv v2 h2
    · intro h
      have hvs : lastDns k vs = none := ih.mpr (fun v2 hv2 => h v2 (Or.inr hv2))
      rw [hvs]
      show (if trimDot v.resourceRecordName = k then some v else none) = none
      rw [if_neg (h v (Or.inl rfl))]

theorem lastDns_of_mem (k : String) (opts : List DomainValidation)
    (v : DomainValidation) (hv : v ∈ opts)
    (hk : trimDot v.resourceRecordName = k) :
    ∃ w, lastDns k opts = some w := by
  cases h : lastDns k opts with
  | some w => exact ⟨w, rfl⟩
  | none => exact absurd hk ((lastDns_eq_none k opts).mp h v hv)

/-! ## `buildExpected` characterisations. -/

/-- On an all-DNS option list `buildExpected` succeeds, and the map binds
each key `k` to the last option whose trimmed record name is `k` (later
insertions overwrite earlier ones). -/
theorem buildExpected_dns (opts : List DomainValidation) :
    ∀ m : List (String × DomainValidation),
      (∀ v ∈ opts, v.validationMethod = some "DNS") →
      ∃ m2, buildExpected opts m = .ok m2 ∧
        (NodupKeys m → NodupKeys m2) ∧
        ∀ k, mapLookup k m2 =
          (match lastDns k opts with
           | some w => some w
           | none => mapLookup k m) := by
  induction opts with
  | nil =>
    intro m _
    exact ⟨m, rfl, fun h => h, fun k => by simp [lastDns]⟩
  | cons v vs ih =>
    intro m hdns
    have hv : v.validationMethod = some "DNS" := hdns v (List.mem_cons_self v vs)
    obtain ⟨m2, h1, h2, h3⟩ :=
      ih (mapInsert (trimDot v.resourceRecordName) v m)
        (fun w hw => hdns w (List.mem_cons_of_mem v hw))
    have e : buildExpected (v :: vs) m
        = buildExpected vs (mapInsert (trimDot v.resourceRecordName) v m) := by
      simp [buildExpected, hv]
    refine ⟨m2, by rw [e]; exact h1, fun hm => h2 (nodupKeys_insert _ v m hm), ?_⟩
    intro k
    rw [h3 k, mapLookup_insert k (trimDot v.resourceRecordName) v m]
    cases hl : lastDns k vs with
    | some w => simp [lastDns, hl]
    | none =>
      simp only [lastDns, hl]
      by_cases ht : trimDot v.resourceRecordName = k
      · simp [ht]
      · simp [ht, Ne.symm ht]

/-- With every option either DNS or silently skippable (unset method, no
e-mails), `buildExpected` succeeds and every binding of the result either
was in the seed map or stems from a DNS option. -/
theorem buildExpected_mixed (opts : List DomainValidation) :
    ∀ m : List (String × DomainValidation),
      (∀ v ∈ opts, (v.validationMethod = none ∧ v.validationEmails = []) ∨
        v.validationMethod = some "DNS") →
      ∃ m2, buildExpected opts m = .ok m2 ∧
        (NodupKeys m → NodupKeys m2) ∧
        ∀ k, mapLookup k m2 ≠ none →
          mapLookup k m ≠ none ∨
          ∃ v, v ∈ opts ∧ v.validationMethod = some "DNS" ∧
            trimDot v.resourceRecordName = k := by
  induction opts with
  | nil => intro m _; exact ⟨m, rfl, fun h => h, fun k hk => Or.inl hk⟩
  | cons v vs ih =>
    intro m h
    rcases h v (List.mem_cons_self v vs) with ⟨hnone, hmail⟩ | hdns
    · have e : buildExpected (v :: vs) m = buildExpected vs m := by
        simp [buildExpected, hnone, hmail]
      obtain ⟨m2, h1, h2, h3⟩ := ih m (fun w hw => h w (List.mem_cons_of_mem v hw))
      refine ⟨m2, by rw [e]; exact h1, h2, ?_⟩
      intro k hk
      rcases h3 k hk with hm | ⟨w, hw1, hw2, hw3⟩
      · exact Or.inl hm
      · exact Or.inr ⟨w, List.mem_cons_of_mem v hw1, hw2, hw3⟩
    · have e : buildExpected (v :: vs) m
          = buildExpected vs (mapInsert (trimDot v.resourceRecordName) v m) := by
        simp [buildExpected, hdns]
      obtain ⟨m2, h1, h2, h3⟩ := ih (mapInsert (trimDot v.resourceRecordName) v m)
          (fun w hw => h w (List.mem_cons_of_mem v hw))
      refine ⟨m2, by rw [e]; exact h1, fun hm => h2 (nodupKeys_insert _ v m hm), ?_⟩
      intro k hk
      rcases h3 k hk with hm | ⟨w, hw1, hw2, hw3⟩
      · rw [mapLookup_insert] at hm
        by_cases hkt : k = trimDot v.resourceRecordName
        · exact Or.inr ⟨v, List.mem_cons_self v vs, hdns, hkt.symm⟩
        · rw [if_neg hkt] at hm
          exact Or.inl hm
      · exact Or.inr ⟨w, List.mem_cons_of_mem v hw1, hw2, hw3⟩

/-- Any option with method EMAIL — or with an unset method but validation
e-mails present — makes `buildExpected` fail with the method-not-supported
error, whatever the seed map. -/
theorem buildExpected_bad (opts : List DomainValidation) :
    ∀ m : List (String × DomainValidation),
      (∃ v ∈ opts, v.validationMethod = some "EMAIL" ∨
        (v.validationMethod = none ∧ v.validationEmails ≠ [])) →
      buildExpected opts m = .error .methodNotSupported := by
  induction opts with
  | nil => intro m hbad; simp at hbad
  | cons v vs ih =>
    intro m hbad
    obtain ⟨w, hw, hbadw⟩ := hbad
    rcases List.mem_cons.mp hw with rfl | hwvs
    · rcases hbadw with hmail | ⟨hnone, hmail⟩
      · simp [buildExpected, hmail]
      · simp [buildExpected, hnone, hmail]
    · cases hv : v.validationMethod with
      | some meth =>
        by_cases hd : meth = "DNS"
        · subst hd
          have e : buildExpected (v :: vs) m
              = buildExpected vs (mapInsert (trimDot v.resourceRecordName) v m) := by
            simp [buildExpected, hv]
          rw [e]
          exact ih _ ⟨w, hwvs, hbadw⟩
        · simp [buildExpected, hv, hd]
      | none =>
        by_cases hmail : v.validationEmails = []
        · have e : buildExpected (v :: vs) m = buildExpected vs m := by
            simp [buildExpected, hv, hmail]
          rw [e]
          exact ih _ ⟨w, hwvs, hbadw⟩
        · simp [buildExpected, hv, hmail]

theorem isEmpty_false_of_ne_nil {α : Type} (l : List α) (h : l ≠ []) :
    l.isEmpty = false := by
  cases l with
  | nil => exact absurd rfl h
  | cons a t => rfl

/-- With the validation options already populated, the checker makes no API
call and runs the pure satisfaction check. -/
theorem checkValidationRecords_nonempty (fuel : Nat) (env : DescribeEnv)
    (fqdns : List String) (cert : CertDetail) (s : Nat)
    (h : cert.domainValidationOptions ≠ []) :
    checkValidationRecords fuel env fqdns cert s
      = (checkCore fqdns cert.domainValidationOptions, s) := by
  simp [checkValidationRecords, isEmpty_false_of_ne_nil _ h]

/-! ## Retry-loop runs in which every pre-deadline attempt is retryable. -/

/-- A polling run of the Create loop in which every polled status is
non-ISSUED: the loop burns all its fuel (`fuel + 1` attempts, one
`DescribeCertificate` each) and times out carrying the last status error. -/
theorem retry_createAttempt_timeout (env : DescribeEnv) (fuel : Nat) :
    ∀ n : Nat,
      (∀ i, n ≤ i → i ≤ n + fuel → ∃ c, env i = .ok c ∧ c.status ≠ "ISSUED") →
      ∃ cl, env (n + fuel) = .ok cl ∧
        Retry fuel (createAttempt env) n =
          (.timeout (.notIssued cl.status), n + fuel + 1) := by
  induction fuel with
  | zero =>
    intro n h
    obtain ⟨c, hc, hs⟩ := h n le_rfl (by omega)
    have ha : createAttempt env n = (.retryable (.notIssued c.status), n + 1) := by
      simp [createAttempt, hc, hs]
    refine ⟨c, by simpa using hc, ?_⟩
    simpa using Retry_retryable_zero (createAttempt env) n (n + 1) _ ha
  | succ f ih =>
    intro n h
    obtain ⟨c, hc, hs⟩ := h n le_rfl (by omega)
    have ha : createAttempt env n = (.retryable (.notIssued c.status), n + 1) := by
      simp [createAttempt, hc, hs]
    obtain ⟨cl, hcl, hr⟩ := ih (n + 1) (fun i h1 h2 => h i (by omega) (by omega))
    refine ⟨cl, by rw [show n + (f + 1) = n + 1 + f by omega]; exact hcl, ?_⟩
    rw [Retry_retryable_succ f (createAttempt env) n (n + 1) _ ha, hr]
    have e2 : n + 1 + f + 1 = n + (f + 1) + 1 := by omega
    rw [e2]

/-- A population-wait run in which every polled option list is empty: the
loop burns all its fuel and times out. -/
theorem retry_popAttempt_timeout (env : DescribeEnv) (fuel : Nat) :
    ∀ (n : Nat) (o : Option CertDetail),
      (∀ i, n ≤ i → i ≤ n + fuel → ∃ c, env i = .ok c ∧ c.domainValidationOptions = []) →
      ∃ o2, Retry fuel (popAttempt env) (n, o) =
        (.timeout .emptyOptions, (n + fuel + 1, o2)) := by
  induction fuel with
  | zero =>
    intro n o h
    obtain ⟨c, hc, hs⟩ := h n le_rfl (by omega)
    have ha : popAttempt env (n, o) = (.retryable .emptyOptions, (n + 1, some c)) := by
      simp [popAttempt, hc, hs]
    exact ⟨some c, by
      simpa using Retry_retryable_zero (popAttempt env) (n, o) (n + 1, some c) _ ha⟩
  | succ f ih =>
    intro n o h
    obtain ⟨c, hc, hs⟩ := h n le_rfl (by omega)
    have ha : popAttempt env (n, o) = (.retryable .emptyOptions, (n + 1, some c)) := by
      simp [popAttempt, hc, hs]
    obtain ⟨o2, hr⟩ := ih (n + 1) (some c) (fun i h1 h2 => h i (by omega) (by omega))
    refine ⟨o2, ?_⟩
    rw [Retry_retryable_succ f (popAttempt env) (n, o) (n + 1, some c) _ ha, hr]
    have e2 : n + 1 + f + 1 = n + (f + 1) + 1 := by omega
    rw [e2]

/-! ## Normalisation lemmas for the signature engine. -/

theorem utf8Char_ne_13 (c : Char) (h : c ≠ '\x0D') : ∀ b ∈ utf8Char c, b ≠ 13 := by
  intro b hb
  have hc : c.toNat ≠ 13 := by
    intro h13
    apply h
    have e := Char.ofNat_toNat c
    rw [h13] at e
    exact e.symm
  simp only [utf8Char] at hb
  by_cases h1 : c.toNat < 128
  · rw [if_pos h1] at hb
    simp only [List.mem_singleton] at hb
    subst hb
    exact hc
  · rw [if_neg h1] at hb
    by_cases h2 : c.toNat < 2048
    · rw [if_pos h2] at hb
      simp only [List.mem_cons, List.mem_singleton, List.not_mem_nil, or_false] at hb
      rcases hb with rfl | rfl <;> omega
    · rw [if_neg h2] at hb
      by_cases h3 : c.toNat < 65536
      · rw [if_pos h3] at hb
        simp only [List.mem_cons, List.mem_singleton, List.not_mem_nil, or_false] at hb
        rcases hb with rfl | rfl | rfl <;> omega
      · rw [if_neg h3] at hb
        simp only [List.mem_cons, List.mem_singleton, List.not_mem_nil, or_false] at hb
        rcases hb with rfl | rfl | rfl | rfl <;> omega

theorem stripCR_utf8Char (c : Char) :
    stripCR (utf8Char c) = if c = '\x0D' then [] else utf8Char c := by
  by_cases h : c = '\x0D'
  · subst h
    decide
  · rw [if_neg h]
    exact List.filter_eq_self.mpr (fun b hb => by simpa using utf8Char_ne_13 c h b hb)

theorem stripCR_utf8Encode (l : List Char) :
    stripCR (utf8Encode l) = utf8Encode (l.filter (fun c => c != '\x0D')) := by
  induction l with
  | nil => rfl
  | cons c t ih =>
    have e1 : utf8Encode (c :: t) = utf8Char c ++ utf8Encode t := by
      simp [utf8Encode]
    rw [e1]
    have e2 : stripCR (utf8Char c ++ utf8Encode t)
        = stripCR (utf8Char c) ++ stripCR (utf8Encode t) := by
      simp [stripCR]
    rw [e2, stripCR_utf8Char c, ih]
    by_cases h : c = '\x0D'
    · rw [if_pos h]
      subst h
      simp
    · rw [if_neg h]
      have e3 : List.filter (fun c2 => c2 != '\x0D') (c :: t)
          = c :: List.filter (fun c2 => c2 != '\x0D') t := by
        simp [h]
      rw [e3]
      simp [utf8Encode]

theorem filter_dropWhile {α : Type} (p sp : α → Bool)
    (hps : ∀ a, p a = false → sp a = true) :
    ∀ l : List α, (l.dropWhile sp).filter p = (l.filter p).dropWhile sp := by
  intro l
  induction l with
  | nil => rfl
  | cons c t ih =>
    cases hsp : sp c with
    | true =>
      have e1 : List.dropWhile sp (c :: t) = List.dropWhile sp t := by
        simp [List.dropWhile_cons, hsp]
      rw [e1, ih]
      cases hp : p c with
      | true =>
        have e2 : List.filter p (c :: t) = c :: List.filter p t := by simp [hp]
        rw [e2]
        simp [List.dropWhile_cons, hsp]
      | false =>
        have e2 : List.filter p (c :: t) = List.filter p t := by simp [hp]
        rw [e2]
    | false =>
      have hp : p c = true := by
        by_contra hfalse
        have hf : p c = false := by simpa using hfalse
        rw [hps c hf] at hsp
        exact Bool.noConfusion hsp
      have e1 : List.dropWhile sp (c :: t) = c :: t := by
        simp [List.dropWhile_cons, hsp]
      have e2 : List.filter p (c :: t) = c :: List.filter p t := by simp [hp]
      rw [e1, e2]
      simp [List.dropWhile_cons, hsp, hp]

theorem goTrimSpace_filterCR (l : List Char) :
    goTrimSpace (l.filter (fun c => c != '\x0D'))
      = (goTrimSpace l).filter (fun c => c != '\x0D') := by
  have hps : ∀ c : Char, (c != '\x0D') = false → goIsSpace c = true := by
    intro c h
    have hc : c = '\x0D' := by simpa using h
    subst hc
    decide
  unfold goTrimSpace
  rw [← filter_dropWhile _ _ hps l, ← List.filter_reverse, ← filter_dropWhile _ _ hps,
    ← List.filter_reverse]

/-- The signature computed by `normalizeCert` is the hex SHA-1 of the input
with every carriage return deleted and the ends trimmed (deleting `\x0D`
first commutes with trimming because `\x0D` is itself white space). -/
theorem certSignature_norm (s : String) :
    certSignature s
      = sha1Hex (utf8Encode (goTrimSpace (s.data.filter (fun c => c != '\x0D')))) := by
  unfold certSignature
  rw [stripCR_utf8Encode (goTrimSpace s.data), goTrimSpace_filterCR s.data]

/-! ## Concrete fixtures used by witnesses and counterexamples. -/

def notFoundErr : ApiError :=
  ⟨"ResourceNotFoundException", "certificate does not exist"⟩

def pendingCert : CertDetail :=
  ⟨"arn:aws:acm:us-east-1:123456789012:certificate/abc",
    "PENDING_VALIDATION", "AMAZON_ISSUED", [], ""⟩

def issuedCert : CertDetail :=
  ⟨"arn:aws:acm:us-east-1:123456789012:certificate/abc",
    "ISSUED", "AMAZON_ISSUED", [], "2020-01-01 00:00:00 +0000 UTC"⟩

def importedCert : CertDetail :=
  ⟨"arn:aws:acm:us-east-1:123456789012:certificate/imp",
    "ISSUED", "IMPORTED", [], ""⟩

def dnsOption : DomainValidation :=
  ⟨"example.com", some "DNS", [], "_v.example.com."⟩

def dnsCert : CertDetail :=
  ⟨"arn:aws:acm:us-east-1:123456789012:certificate/abc",
    "PENDING_VALIDATION", "AMAZON_ISSUED", [dnsOption], ""⟩

def emailOption : DomainValidation :=
  ⟨"mail.example.com", some "EMAIL", ["admin@example.com"], ""⟩

def emailCert : CertDetail :=
  ⟨"arn:aws:acm:us-east-1:123456789012:certificate/eml",
    "PENDING_VALIDATION", "AMAZON_ISSUED", [emailOption], ""⟩

/-- an environment for runs that must issue no `DescribeCertificate` call -/
def envNever : DescribeEnv := fun _ => .error ⟨"InternalError", "unused"⟩

def envImported : DescribeEnv := fun _ => .ok importedCert

/-- pending on calls 0–2, issued from call 3 on -/
def pendThenIssue : DescribeEnv := fun n =>
  if n ≤ 2 then .ok pendingCert else .ok issuedCert

/-- empty validation options on calls 0–1, populated from call 2 on -/
def popEnv : DescribeEnv := fun n =>
  if n ≤ 1 then .ok pendingCert else .ok dnsCert

/-- both polls pending, every later call a transport error -/
def envFinalFetchFails : DescribeEnv := fun n =>
  if n ≤ 1 then .ok pendingCert else .error ⟨"ThrottlingException", "Rate exceeded"⟩

/-! ## Claims. -/

/-- C3, counterexample: the claim `signature(null) == signature("") == ""`
is false on the code — `normalizeCert` returns `""` for a nil input, but an
empty *string* falls through to the hashing path and gets the SHA-1 of the
empty byte sequence, not `""`. -/
theorem claim3_counterexample :
    normalizeCert (CertInput.str "") ≠ "" ∧ normalizeCert CertInput.null = "" := by
  exact ⟨by decide, rfl⟩

/-- C3 (amended): a nil input (or nil `*string`) yields the empty
signature, while the empty string yields the 40-hex-character SHA-1 digest
of the empty byte sequence, which differs from `signature(null)`. -/
theorem claim3_amended_empty_signature :
    normalizeCert CertInput.null = "" ∧
    normalizeCert (CertInput.strPtr none) = "" ∧
    normalizeCert (CertInput.str "")
      = "da39a3ee5e6b4b0d3255bfef95601890afd80709" ∧
    normalizeCert (CertInput.str "") ≠ normalizeCert CertInput.null := by
  exact ⟨rfl, rfl, by decide, by decide⟩

/-- C7: the signature of a string equals the hex digest of that string with
every carriage-return character deleted and leading/trailing white space
trimmed, so the signature is invariant under inserting or removing `\x0D`
bytes and under leading/trailing white-space changes: any two strings equal
after that normalisation share a signature. -/
theorem claim7_signature_invariance :
    ∀ s : String,
      normalizeCert (CertInput.str s)
        = sha1Hex (utf8Encode (goTrimSpace (s.data.filter (fun c => c != '\x0D')))) ∧
      ∀ t : String,
        goTrimSpace (s.data.filter (fun c => c != '\x0D'))
          = goTrimSpace (t.data.filter (fun c => c != '\x0D')) →
        normalizeCert (CertInput.str s) = normalizeCert (CertInput.str t) := by
  intro s
  constructor
  · exact certSignature_norm s
  · intro t h
    show certSignature s = certSignature t
    rw [certSignature_norm s, certSignature_norm t, h]

/-- C7 witness: `"a\x0D"` and `" a "` normalise to the same text and indeed
get the same signature. -/
theorem claim7_witness :
    goTrimSpace (("a\x0D".data).filter (fun c => c != '\x0D'))
      = goTrimSpace ((" a ".data).filter (fun c => c != '\x0D')) ∧
    normalizeCert (CertInput.str "a\x0D") = normalizeCert (CertInput.str " a ") := by
  exact ⟨by decide, (claim7_signature_invariance "a\x0D").2 " a " (by decide)⟩

/-- C8: the validation-waiter Read clears the local identity without error
on a not-found response and on any non-ISSUED status, and sets the identity
to the rendered issuance timestamp when the status is ISSUED. -/
theorem claim8_read :
    (∀ e : ApiError, e.code = "ResourceNotFoundException" →
      readModel (.error e) = .ok none) ∧
    (∀ c : CertDetail, c.status ≠ "ISSUED" → readModel (.ok c) = .ok none) ∧
    (∀ c : CertDetail, c.status = "ISSUED" →
      readModel (.ok c) = .ok (some c.issuedAt)) := by
  refine ⟨fun e he => ?_, fun c hc => ?_, fun c hc => ?_⟩
  · simp [readModel, he]
  · simp [readModel, hc]
  · simp [readModel, hc]

/-- C8 witness: the three Read cases at concrete responses. -/
theorem claim8_witness :
    readModel (.error notFoundErr) = .ok none ∧
    readModel (.ok pendingCert) = .ok none ∧
    readModel (.ok issuedCert) = .ok (some "2020-01-01 00:00:00 +0000 UTC") := by
  exact ⟨claim8_read.1 notFoundErr rfl, claim8_read.2.1 pendingCert (by decide),
    claim8_read.2.2 issuedCert rfl⟩

/-- C6: when the initial fetch reports a type other than AMAZON_ISSUED the
Create fails at once — the call count stays at 1, so no polling
`DescribeCertificate` is ever issued. -/
theorem claim6_wrong_type (fuelPop fuelLoop : Nat) (env : DescribeEnv)
    (fqdns : Option (List String)) (c : CertDetail)
    (h0 : env 0 = .ok c) (htype : c.certType ≠ "AMAZON_ISSUED") :
    create fuelPop fuelLoop env fqdns = (.err (.wrongType c.arn c.status), 1) := by
  simp [create, h0, htype]

/-- C6 witness: an IMPORTED certificate fails the Create after exactly the
one initial call. -/
theorem claim6_witness :
    create 3 5 envImported (some ["a.example.com"])
      = (.err (.wrongType "arn:aws:acm:us-east-1:123456789012:certificate/imp"
          "ISSUED"), 1) :=
  claim6_wrong_type 3 5 envImported (some ["a.example.com"]) importedCert rfl (by decide)

/-- C5: any requirement with method EMAIL — or with no method set but a
non-empty validation e-mail list — makes the satisfaction check fail
immediately with the method-not-supported error, for every declared FQDN
set, with no API call made. -/
theorem claim5_email_not_supported (fuel : Nat) (env : DescribeEnv)
    (fqdns : List String) (cert : CertDetail) (s : Nat)
    (hbad : ∃ v ∈ cert.domainValidationOptions,
      v.validationMethod = some "EMAIL" ∨
      (v.validationMethod = none ∧ v.validationEmails ≠ [])) :
    checkValidationRecords fuel env fqdns cert s
      = (.error .methodNotSupported, s) := by
  have hne : cert.domainValidationOptions ≠ [] := by
    obtain ⟨v, hv, _⟩ := hbad
    intro he
    rw [he] at hv
    exact absurd hv (List.not_mem_nil v)
  rw [checkValidationRecords_nonempty fuel env fqdns cert s hne]
  unfold checkCore
  rw [buildExpected_bad cert.domainValidationOptions [] hbad]

/-- C5 witness: an EMAIL-method requirement fails the check at once. -/
theorem claim5_witness :
    checkValidationRecords 2 envNever ["whatever.example.com"] emailCert 0
      = (.error .methodNotSupported, 0) :=
  claim5_email_not_supported 2 envNever ["whatever.example.com"] emailCert 0
    ⟨emailOption, by decide, Or.inl rfl⟩

/-- C9: requirements whose method is unset and whose e-mail list is empty
are silently skipped — they are never inserted into the expected-record
map, so the check succeeds whenever the DNS requirements are covered, even
though nothing in the declared set covers the skipped requirement. -/
theorem claim9_unset_method_skipped (fuel : Nat) (env : DescribeEnv)
    (fqdns : List String) (cert : CertDetail) (s : Nat)
    (hne : cert.domainValidationOptions ≠ [])
    (h : ∀ v ∈ cert.domainValidationOptions,
      (v.validationMethod = none ∧ v.validationEmails = []) ∨
      (v.validationMethod = some "DNS" ∧
        trimDot v.resourceRecordName ∈ fqdns.map trimDot)) :
    checkValidationRecords fuel env fqdns cert s = (.ok (), s) := by
  rw [checkValidationRecords_nonempty fuel env fqdns cert s hne]
  obtain ⟨m2, h1, h2, h3⟩ := buildExpected_mixed cert.domainValidationOptions []
    (fun v hv => by
      rcases h v hv with h4 | h4
      · exact Or.inl h4
      · exact Or.inr h4.1)
  have hnodup : NodupKeys m2 := h2 (by simp [NodupKeys, mapKeys])
  have hfold : fqdns.foldl (fun acc f => mapErase (trimDot f) acc) m2 = [] := by
    cases hm : fqdns.foldl (fun acc f => mapErase (trimDot f) acc) m2 with
    | nil => rfl
    | cons p t =>
      exfalso
      have hl : mapLookup p.1 (fqdns.foldl (fun acc f => mapErase (trimDot f) acc) m2)
          = some p.2 := by
        rw [hm]
        obtain ⟨k0, v0⟩ := p
        simp [mapLookup]
      rw [mapLookup_foldl_erase p.1 fqdns m2 hnodup] at hl
      by_cases hin : p.1 ∈ fqdns.map trimDot
      · rw [if_pos hin] at hl
        exact Option.noConfusion hl
      · rw [if_neg hin] at hl
        rcases h3 p.1 (by rw [hl]; exact fun he => Option.noConfusion he) with hcontra | hdns
        · exact hcontra rfl
        · obtain ⟨v, hv1, hv2, hv3⟩ := hdns
          rcases h v hv1 with ⟨hm0, _⟩ | ⟨_, hmem⟩
          · rw [hv2] at hm0
            exact Option.noConfusion hm0
          · rw [hv3] at hmem
            exact hin hmem
  simp [checkCore, h1, hfold]

/-- C9 witness: a lone requirement with no method and no e-mails passes the
check against an empty declared set even though its record is not covered. -/
theorem claim9_witness :
    checkValidationRecords 4 envNever []
      ⟨"arn:aws:acm:us-east-1:123456789012:certificate/q", "PENDING_VALIDATION",
        "AMAZON_ISSUED", [⟨"quiet.example.com", none, [], "_q.example.com."⟩], ""⟩ 0
      = (.ok (), 0) :=
  claim9_unset_method_skipped 4 envNever []
    ⟨"arn:aws:acm:us-east-1:123456789012:certificate/q", "PENDING_VALIDATION",
      "AMAZON_ISSUED", [⟨"quiet.example.com", none, [], "_q.example.com."⟩], ""⟩ 0
    (by decide)
    (by
      intro v hv
      left
      simp only [CertDetail.domainValidationOptions] at hv
      rcases List.mem_singleton.mp hv with rfl
      exact ⟨rfl, rfl⟩)

/-- Full characterisation of the satisfaction check on an all-DNS option
list: success exactly when every trimmed record name is declared, and on
failure the aggregated entries are one per uncovered record name, keyed by
the last requirement bearing that name. -/
theorem checkCore_dns (ds : List String) (opts : List DomainValidation)
    (hdns : ∀ v ∈ opts, v.validationMethod = some "DNS") :
    (checkCore ds opts = .ok () ↔
      ∀ v ∈ opts, trimDot v.resourceRecordName ∈ ds.map trimDot) ∧
    (∀ entries, checkCore ds opts = .error (.missingRecords entries) →
      (∀ p ∈ entries,
        p.2 ∉ ds.map trimDot ∧
        ∃ v, lastDns p.2 opts = some v ∧ v ∈ opts ∧
          trimDot v.resourceRecordName = p.2 ∧ v.domainName = p.1) ∧
      (∀ v ∈ opts, trimDot v.resourceRecordName ∉ ds.map trimDot →
        ∃ d, (d, trimDot v.resourceRecordName) ∈ entries) ∧
      (entries.map Prod.snd).Nodup) := by
  obtain ⟨m2, h1, h2, h3⟩ := buildExpected_dns opts [] hdns
  have hnodup2 : NodupKeys m2 := h2 (by simp [NodupKeys, mapKeys])
  have h3e : ∀ k, mapLookup k m2 = lastDns k opts := by
    intro k
    rw [h3 k]
    cases lastDns k opts <;> rfl
  have hnodup3 : NodupKeys (ds.foldl (fun acc f => mapErase (trimDot f) acc) m2) :=
    nodupKeys_foldl_erase ds m2 hnodup2
  have hlook : ∀ k, mapLookup k (ds.foldl (fun acc f => mapErase (trimDot f) acc) m2)
      = if k ∈ ds.map trimDot then none else lastDns k opts := by
    intro k
    rw [mapLookup_foldl_erase k ds m2 hnodup2, h3e k]
  set m3 := ds.foldl (fun acc f => mapErase (trimDot f) acc) m2 with hm3def
  have hempty_iff : m3.isEmpty = true ↔ m3 = [] := by
    cases m3 <;> simp
  have hcc : checkCore ds opts
      = if m3.isEmpty then .ok ()
        else .error (.missingRecords (m3.map (fun p => (p.2.domainName, p.1)))) := by
    unfold checkCore
    rw [h1]
  have hallkeys : m3 = [] ↔
      ∀ v ∈ opts, trimDot v.resourceRecordName ∈ ds.map trimDot := by
    constructor
    · intro hnil v hv
      by_contra hnot
      obtain ⟨w, hw⟩ := lastDns_of_mem (trimDot v.resourceRecordName) opts v hv rfl
      have hl := hlook (trimDot v.resourceRecordName)
      rw [hnil, if_neg hnot, hw] at hl
      simp [mapLookup] at hl
    · intro hall
      cases hm : m3 with
      | nil => rfl
      | cons p t =>
        exfalso
        have hl : mapLookup p.1 m3 = some p.2 := by
          rw [hm]
          obtain ⟨k0, v0⟩ := p
          simp [mapLookup]
        rw [hlook p.1] at hl
        by_cases hin : p.1 ∈ ds.map trimDot
        · rw [if_pos hin] at hl
          exact Option.noConfusion hl
        · rw [if_neg hin] at hl
          obtain ⟨hv2, hk2⟩ := lastDns_mem p.1 opts p.2 hl
          exact hin (hk2 ▸ hall p.2 hv2)
  refine ⟨?_, ?_⟩
  · rw [hcc]
    by_cases he : m3 = []
    · rw [if_pos (hempty_iff.mpr he)]
      constructor
      · intro _
        exact hallkeys.mp he
      · intro _
        rfl
    · rw [if_neg (fun hc => he (hempty_iff.mp hc))]
      constructor
      · intro hcontra
        exact Except.noConfusion hcontra
      · intro hall
        exact absurd (hallkeys.mpr hall) he
  · intro entries hentries
    rw [hcc] at hentries
    by_cases he : m3 = []
    · rw [if_pos (hempty_iff.mpr he)] at hentries
      exact Except.noConfusion hentries
    · rw [if_neg (fun hc => he (hempty_iff.mp hc))] at hentries
      have hent : entries = m3.map (fun p => (p.2.domainName, p.1)) := by
        injection hentries with h4
        injection h4 with h5
        exact h5.symm
      subst hent
      refine ⟨?_, ?_, ?_⟩
      · intro p hp
        obtain ⟨kv, hkv, hpe⟩ := List.mem_map.mp hp
        subst hpe
        have hl : mapLookup kv.1 m3 = some kv.2 :=
          (mem_iff_mapLookup kv.1 kv.2 m3 hnodup3).mp hkv
        rw [hlook kv.1] at hl
        by_cases hin : kv.1 ∈ ds.map trimDot
        · rw [if_pos hin] at hl
          exact absurd hl (by simp)
        · rw [if_neg hin] at hl
          obtain ⟨hv2, hk2⟩ := lastDns_mem kv.1 opts kv.2 hl
          exact ⟨hin, kv.2, hl, hv2, hk2, rfl⟩
      · intro v hv hnot
        obtain ⟨w, hw⟩ := lastDns_of_mem (trimDot v.resourceRecordName) opts v hv rfl
        have hl : mapLookup (trimDot v.resourceRecordName) m3 = some w := by
          rw [hlook, if_neg hnot, hw]
        have hmem : (trimDot v.resourceRecordName, w) ∈ m3 :=
          (mem_iff_mapLookup (trimDot v.resourceRecordName) w m3 hnodup3).mpr hl
        exact ⟨w.domainName,
          List.mem_map.mpr ⟨(trimDot v.resourceRecordName, w), hmem, rfl⟩⟩
      · have e : (m3.map (fun p => (p.2.domainName, p.1))).map Prod.snd
            = m3.map Prod.fst := by
          rw [List.map_map]
          rfl
        rw [e]
        exact hnodup3

/-- C2 (amended): for a non-empty all-DNS requirement set, the check
succeeds iff every trimmed record name is in the trimmed declared set; on
failure the aggregated error holds, per *uncovered record name*, exactly
one `(domain, record-name)` entry whose domain is that of the last
requirement bearing the name — requirements sharing a record name collapse
into a single entry, so the enumeration is by missing record name rather
than one pair per requirement. -/
theorem claim2_amended_reconciliation (fuel : Nat) (env : DescribeEnv)
    (ds : List String) (cert : CertDetail) (s : Nat)
    (hne : cert.domainValidationOptions ≠ [])
    (hdns : ∀ v ∈ cert.domainValidationOptions, v.validationMethod = some "DNS") :
    (checkValidationRecords fuel env ds cert s = (.ok (), s) ↔
      ∀ v ∈ cert.domainValidationOptions,
        trimDot v.resourceRecordName ∈ ds.map trimDot) ∧
    (∀ entries,
      (checkValidationRecords fuel env ds cert s).1
          = .error (.missingRecords entries) →
      (∀ p ∈ entries,
        p.2 ∉ ds.map trimDot ∧
        ∃ v, lastDns p.2 cert.domainValidationOptions = some v ∧
          v ∈ cert.domainValidationOptions ∧
          trimDot v.resourceRecordName = p.2 ∧ v.domainName = p.1) ∧
      (∀ v ∈ cert.domainValidationOptions,
        trimDot v.resourceRecordName ∉ ds.map trimDot →
        ∃ d, (d, trimDot v.resourceRecordName) ∈ entries) ∧
      (entries.map Prod.snd).Nodup) := by
  rw [checkValidationRecords_nonempty fuel env ds cert s hne]
  obtain ⟨hiff, hfail⟩ := checkCore_dns ds cert.domainValidationOptions hdns
  constructor
  · simp only [Prod.mk.injEq, and_true]
    exact hiff
  · intro entries h
    exact hfail entries h

def dupOptA : DomainValidation := ⟨"a.example.com", some "DNS", [], "_x.example.com."⟩

def dupOptB : DomainValidation := ⟨"b.example.com", some "DNS", [], "_x.example.com."⟩

def dupCert : CertDetail :=
  ⟨"arn:aws:acm:us-east-1:123456789012:certificate/dup",
    "PENDING_VALIDATION", "AMAZON_ISSUED", [dupOptA, dupOptB], ""⟩

/-- C2, counterexample: two DNS requirements for different domains share
one record name (the wildcard/apex pattern).  With that name undeclared,
the aggregated error holds a single entry — for the second domain only —
although `("a.example.com", "_x.example.com")` is a (domain, record-name)
pair whose record name is in the requirement projection and not in D, so
the claimed enumeration ("no fewer") fails. -/
theorem claim2_counterexample :
    (checkValidationRecords 0 envNever ["other.example.com"] dupCert 0).1
        = .error (.missingRecords [("b.example.com", "_x.example.com")]) ∧
    dupOptA ∈ dupCert.domainValidationOptions ∧
    dupOptA.domainName = "a.example.com" ∧
    trimDot dupOptA.resourceRecordName = "_x.example.com" ∧
    "_x.example.com" ∉ (["other.example.com"] : List String).map trimDot ∧
    ("a.example.com", "_x.example.com")
        ∉ [(("b.example.com" : String), ("_x.example.com" : String))] := by
  exact ⟨by decide, by decide, rfl, by decide, by decide, by decide⟩

/-- C2 witness: a covered single-requirement certificate passes the check
with no API call. -/
theorem claim2_witness :
    checkValidationRecords 0 envNever ["_v.example.com"] dnsCert 0 = (.ok (), 0) := by
  have h := claim2_amended_reconciliation 0 envNever ["_v.example.com"] dnsCert 0
    (by decide) (by decide)
  exact h.1.mpr (by decide)

def conflictMsgNoArn : String :=
  "Certificate is currently in use by elasticloadbalancing:us-east-1/my-lb."

def conflictMsgArn : String :=
  "Certificate is currently in use by arn:aws:elasticloadbalancing:us-east-1/my-lb. Please remove it from the resource and try again."

def noSuchEntity : ApiError := ⟨"NoSuchEntity", "the server certificate is gone"⟩

def envDeleteNoArn : Nat → DeleteResp := fun n =>
  if n = 0 then .aws ⟨"DeleteConflict", conflictMsgNoArn⟩ else .aws noSuchEntity

def envDeleteArn : Nat → DeleteResp := fun n =>
  if n = 0 then .aws ⟨"DeleteConflict", conflictMsgArn⟩ else .aws noSuchEntity

/-- C4, counterexample: with the claim's conflict message — whose
referencing resource is written `elasticloadbalancing:us-east-1/my-lb`,
without `arn` after `by` — the `strings.Contains(msg, "currently in use by
arn")` guard fails, so the delete is NOT retried: it fails on the very
first attempt (call count 1) although the documented pattern would parse
`my-lb` out of the message and the next attempt would have returned
`NoSuchEntity`. -/
theorem claim4_counterexample :
    serverCertDelete 5 envDeleteNoArn
      = (.error (.aws ⟨"DeleteConflict", conflictMsgNoArn⟩), 1) ∧
    currentlyInUseBy conflictMsgNoArn = some "my-lb" ∧
    envDeleteNoArn 1 = .aws noSuchEntity := by
  exact ⟨by decide, by decide, rfl⟩

/-- C4 (amended): the retry classification additionally requires the
conflict message to contain `"currently in use by arn"`.  For a
DeleteConflict whose message is `"... currently in use by
arn:aws:elasticloadbalancing:us-east-1/my-lb. ..."` the referencing name
`my-lb` is parsed via the documented pattern, the delete is retried under
the deadline, and a `NoSuchEntity` error on the retry attempt is treated as
success (two delete calls in total). -/
theorem claim4_amended_delete_conflict :
    currentlyInUseBy conflictMsgArn = some "my-lb" ∧
    serverCertDelete 5 envDeleteArn = (.ok (), 2) := by
  exact ⟨by decide, by decide⟩

/-- C10 (code bug): when the 45-minute loop expires with the certificate
still pending and the final post-deadline `DescribeCertificate` returns an
error, line 88 reads `resp.Certificate.Status` without checking that error;
the response carries no certificate and the field selection is a nil
dereference, modelled as the `panicNilDeref` outcome. -/
theorem claim10_final_fetch_nil_deref :
    create 0 0 envFinalFetchFails none = (.panicNilDeref, 3) := by
  decide

/-- C1: whenever the bounded Create polling loop expires with every polled
status non-ISSUED, exactly one additional `DescribeCertificate` call is made
after deadline expiry (total count `fuelLoop + 3`: initial fetch,
`fuelLoop + 1` polls, one final fetch), and the operation succeeds iff that
final authoritative fetch reports ISSUED — never failing on the last
pre-deadline snapshot alone; symmetrically, when the 1-minute
requirement-population wait expires with every polled option list empty,
exactly one additional fetch is made and the check proceeds on that final
response whenever it shows non-empty options. -/
theorem claim1_final_fetch :
    (∀ (fuelPop fuelLoop : Nat) (env : DescribeEnv) (c : CertDetail),
      env 0 = .ok c → c.certType = "AMAZON_ISSUED" →
      (∀ i, 1 ≤ i → i ≤ 1 + fuelLoop → ∃ ci, env i = .ok ci ∧ ci.status ≠ "ISSUED") →
      ((create fuelPop fuelLoop env none).2 = fuelLoop + 3 ∧
        ∀ c2, env (fuelLoop + 2) = .ok c2 →
          (create fuelPop fuelLoop env none).1
            = (if c2.status = "ISSUED" then CreateOutcome.ok
               else .err (.notIssued c2.status)))) ∧
    (∀ (fuel : Nat) (env : DescribeEnv) (ds : List String) (cert : CertDetail) (s : Nat),
      cert.domainValidationOptions = [] →
      (∀ i, s ≤ i → i ≤ s + fuel →
        ∃ ci, env i = .ok ci ∧ ci.domainValidationOptions = []) →
      ((checkValidationRecords fuel env ds cert s).2 = s + fuel + 2 ∧
        ∀ c2, env (s + fuel + 1) = .ok c2 → c2.domainValidationOptions ≠ [] →
          (checkValidationRecords fuel env ds cert s).1
            = checkCore ds c2.domainValidationOptions)) := by
  constructor
  · intro fuelPop fuelLoop env c h0 htype hpend
    obtain ⟨cl, hcl, hr⟩ := retry_createAttempt_timeout env fuelLoop 1
      (fun i h1 h2 => hpend i h1 (by omega))
    have hcreate : create fuelPop fuelLoop env none
        = (match env (1 + fuelLoop + 1) with
           | .error _ => (CreateOutcome.panicNilDeref, 1 + fuelLoop + 1 + 1)
           | .ok c2 =>
             if c2.status ≠ "ISSUED"
             then (.err (.notIssued c2.status), 1 + fuelLoop + 1 + 1)
             else (.ok, 1 + fuelLoop + 1 + 1)) := by
      unfold create
      rw [h0]
      dsimp only
      rw [if_neg (by simp [htype])]
      rw [hr]
    have he : 1 + fuelLoop + 1 = fuelLoop + 2 := by omega
    rw [he] at hcreate
    have hcreate2 : create fuelPop fuelLoop env none
        = ((match env (fuelLoop + 2) with
            | .error _ => CreateOutcome.panicNilDeref
            | .ok c2 =>
              if c2.status ≠ "ISSUED" then .err (.notIssued c2.status) else .ok),
           fuelLoop + 3) := by
      rw [hcreate]
      cases env (fuelLoop + 2) with
      | error e =>
        show (CreateOutcome.panicNilDeref, fuelLoop + 2 + 1)
            = (CreateOutcome.panicNilDeref, fuelLoop + 3)
        rw [show fuelLoop + 2 + 1 = fuelLoop + 3 from by omega]
      | ok c2 =>
        show (if c2.status ≠ "ISSUED"
              then (CreateOutcome.err (.notIssued c2.status), fuelLoop + 2 + 1)
              else (CreateOutcome.ok, fuelLoop + 2 + 1))
            = ((if c2.status ≠ "ISSUED"
                then CreateOutcome.err (.notIssued c2.status) else .ok), fuelLoop + 3)
        by_cases hst : c2.status ≠ "ISSUED"
        · rw [if_pos hst, if_pos hst,
            show fuelLoop + 2 + 1 = fuelLoop + 3 from by omega]
        · rw [if_neg hst, if_neg hst,
            show fuelLoop + 2 + 1 = fuelLoop + 3 from by omega]
    constructor
    · rw [hcreate2]
    · intro c2 henv
      rw [hcreate2, henv]
      show (if c2.status ≠ "ISSUED"
            then CreateOutcome.err (.notIssued c2.status) else .ok)
          = (if c2.status = "ISSUED" then CreateOutcome.ok
             else .err (.notIssued c2.status))
      by_cases hst : c2.status = "ISSUED" <;> simp [hst]
  · intro fuel env ds cert s hempty hpend
    obtain ⟨o2, hr⟩ := retry_popAttempt_timeout env fuel s none hpend
    have hcvr : checkValidationRecords fuel env ds cert s
        = (match env (s + fuel + 1) with
           | .error e => (.error (.describeError e.message), s + fuel + 1 + 1)
           | .ok c2 =>
             if c2.domainValidationOptions.isEmpty
             then (.error .emptyOptions, s + fuel + 1 + 1)
             else (checkCore ds c2.domainValidationOptions, s + fuel + 1 + 1)) := by
      unfold checkValidationRecords
      rw [if_pos (by rw [hempty]; rfl)]
      rw [hr]
    have hcvr2 : checkValidationRecords fuel env ds cert s
        = ((match env (s + fuel + 1) with
            | .error e => .error (.describeError e.message)
            | .ok c2 =>
              if c2.domainValidationOptions.isEmpty
              then Except.error CheckError.emptyOptions
              else checkCore ds c2.domainValidationOptions),
           s + fuel + 2) := by
      rw [hcvr]
      cases env (s + fuel + 1) with
      | error e =>
        show (Except.error (CheckError.describeError e.message), s + fuel + 1 + 1)
            = (Except.error (CheckError.describeError e.message), s + fuel + 2)
        rw [show s + fuel + 1 + 1 = s + fuel + 2 from by omega]
      | ok c2 =>
        show (if c2.domainValidationOptions.isEmpty
              then (Except.error CheckError.emptyOptions, s + fuel + 1 + 1)
              else (checkCore ds c2.domainValidationOptions, s + fuel + 1 + 1))
            = ((if c2.domainValidationOptions.isEmpty
                then Except.error CheckError.emptyOptions
                else checkCore ds c2.domainValidationOptions), s + fuel + 2)
        by_cases hio : c2.domainValidationOptions.isEmpty
        · rw [if_pos hio, if_pos hio,
            show s + fuel + 1 + 1 = s + fuel + 2 from by omega]
        · rw [if_neg hio, if_neg hio,
            show s + fuel + 1 + 1 = s + fuel + 2 from by omega]
    constructor
    · rw [hcvr2]
    · intro c2 henv hne2
      rw [hcvr2, henv]
      show (if c2.domainValidationOptions.isEmpty
            then Except.error CheckError.emptyOptions
            else checkCore ds c2.domainValidationOptions)
          = checkCore ds c2.domainValidationOptions
      rw [if_neg (by simp [isEmpty_false_of_ne_nil _ hne2])]

/-- C1 witness: with a certificate pending for the whole deadline and
issued just after it, Create makes 4 calls and succeeds on the final fetch;
with options empty for the whole 1-minute wait and populated just after it,
the checker makes 3 calls and checks the final response's options. -/
theorem claim1_witness :
    (create 0 1 pendThenIssue none).2 = 4 ∧
    (create 0 1 pendThenIssue none).1 = CreateOutcome.ok ∧
    (checkValidationRecords 1 popEnv ["_v.example.com"] pendingCert 0).2 = 3 ∧
    (checkValidationRecords 1 popEnv ["_v.example.com"] pendingCert 0).1
      = checkCore ["_v.example.com"] [dnsOption] := by
  have hA := claim1_final_fetch.1 0 1 pendThenIssue pendingCert rfl rfl
    (by
      intro i h1 h2
      refine ⟨pendingCert, ?_, by decide⟩
      show pendThenIssue i = .ok pendingCert
      unfold pendThenIssue
      rw [if_pos (by omega : i ≤ 2)])
  have hB := claim1_final_fetch.2 1 popEnv ["_v.example.com"] pendingCert 0 rfl
    (by
      intro i h1 h2
      refine ⟨pendingCert, ?_, rfl⟩
      show popEnv i = .ok pendingCert
      unfold popEnv
      rw [if_pos (by omega : i ≤ 1)])
  refine ⟨hA.1, ?_, hB.1, ?_⟩
  · rw [hA.2 issuedCert rfl]
    decide
  · exact hB.2 dnsCert rfl (by decide)

end TfAws
